import Mathlib

/-!
Verification development for the DistributedEventLab repository:
a shallow embedding of `src/server/main.py` (event-ingestion service with a
bounded backpressure queue) and `src/generator/main.py` (rate-limited async
load generator), together with theorems settling the specification claims.

Modelling conventions:
* JSON values are the inductive `Json`; a Python dict is an association list
  of string keys (insertion ordered, as Python dicts are).
* `asyncio.Queue` with `maxsize` is `BQueue`; `put_nowait` returns `none`
  exactly when the queue is full (the `QueueFull` exception).
* The wall clock `now_z()` / `time.monotonic()` and the random payloads are
  modelled as ambient oracle streams passed explicitly.
* A raised-and-unhandled Python exception is an explicit error constructor;
  a caught exception is the corresponding `match` arm.
-/

namespace DistributedEventLab

/-- JSON values, as produced by `request.json()` / `json.loads`. -/
inductive Json where
  | null
  | bool (b : Bool)
  | num (n : Int)
  | str (s : String)
  | arr (elems : List Json)
  | obj (fields : List (String × Json))


/-- Python `k in d` on a dict modelled as an association list. -/
def hasKey (d : List (String × Json)) (k : String) : Bool :=
  d.any (fun p => p.1 == k)

/-- Python `d.get(k)` on a dict modelled as an association list. -/
def lookupKey (d : List (String × Json)) (k : String) : Option Json :=
  (d.find? (fun p => p.1 == k)).map (fun p => p.2)

/-- Python `d.setdefault(k, v)`: insert `(k, v)` at the end iff `k` is absent;
an existing binding is never overwritten. -/
def setdefault (d : List (String × Json)) (k : String) (v : Json) :
    List (String × Json) :=
  if hasKey d k then d else d ++ [(k, v)]

/-- The metadata defaulting of `ingest_events` (server/main.py lines 51-52):
`event.setdefault("_recieved_at", now_z()); event.setdefault("_source",
"events-generator")`, with the `now_z()` result passed in as `ts`. -/
def addMeta (ts : String) (d : List (String × Json)) : List (String × Json) :=
  setdefault (setdefault d "_recieved_at" (Json.str ts)) "_source"
    (Json.str "events-generator")

/-- Metadata defaulting lifted to a JSON value: defined only on objects; on
any other value Python would raise `AttributeError` (handled separately in
`ingestLoop`). -/
def mutateEvent (ts : String) : Json → Json
  | Json.obj fields => Json.obj (addMeta ts fields)
  | j => j

/-- Whether a JSON value is an object (`isinstance(body, dict)`). -/
def isObjJson : Json → Bool
  | Json.obj _ => true
  | _ => false

/-- `asyncio.Queue(maxsize=...)`: FIFO list of items plus the capacity bound.
`EVENT_QUEUE` (server/main.py line 18) is `BQueue.mk 10000 []`. -/
structure BQueue where
  maxsize : Nat
  items : List Json


/-- `asyncio.Queue.full()`: never full when `maxsize <= 0`, otherwise full
when the current size has reached `maxsize`. -/
def bqFull (q : BQueue) : Bool :=
  if q.maxsize = 0 then false else decide (q.maxsize ≤ q.items.length)

/-- `asyncio.Queue.put_nowait(e)`: `none` models the `QueueFull` exception
(queue unchanged); otherwise the item is appended. -/
def put_nowait (q : BQueue) (e : Json) : Option BQueue :=
  if bqFull q then none else some { q with items := q.items ++ [e] }

/-- The module-level queue `EVENT_QUEUE = asyncio.Queue(maxsize=10000)`,
empty at startup. -/
def EVENT_QUEUE : BQueue := { maxsize := 10000, items := [] }

/-- One queue operation: a producer `put_nowait` or a consumer `get`. -/
inductive QOp where
  | put (e : Json)
  | get


/-- Apply one operation to the queue state. A failed `put_nowait` leaves the
queue unchanged; a blocking `get` on an empty queue has not completed, so it
also leaves the state unchanged. -/
def applyOp (q : BQueue) : QOp → BQueue
  | QOp.put e => (put_nowait q e).getD q
  | QOp.get =>
    match q.items with
    | [] => q
    | _ :: rest => { q with items := rest }

/-- Apply a sequence of queue operations from left to right. -/
def applyOps (q : BQueue) (ops : List QOp) : BQueue :=
  ops.foldl applyOp q

/-- The observable outcome of one `POST /events` request:
`ok` is the HTTP 200 `IngestResponse` (accepted, queued_size, timestamp);
`badRequest` is the `HTTPException(status_code=400, detail=...)`;
`attributeError` is the unhandled `AttributeError` raised by
`event.setdefault` on a non-dict list element (an HTTP 500, not a 400). -/
inductive IngestOutcome where
  | ok (accepted : Nat) (queued_size : Nat) (timestamp : String)
  | badRequest (detail : String)
  | attributeError

/-- The `for event in events` loop of `ingest_events` (server/main.py lines
48-58). Returns `(outcome, final queue, the request events after in-place
mutation)`, where `outcome` is `some accepted` on normal completion and
`none` when an `AttributeError` escaped. Each event is metadata-defaulted
first, then `put_nowait` is attempted; `QueueFull` breaks out of the loop
(the rejected event stays mutated, the rest untouched). -/
def ingestLoop (ts : String) : List Json → BQueue → Option Nat × BQueue × List Json
  | [], q => (some 0, q, [])
  | e :: rest, q =>
    match e with
    | Json.obj fields =>
      let e1 := Json.obj (addMeta ts fields)
      match put_nowait q e1 with
      | some q1 =>
        let r := ingestLoop ts rest q1
        (r.1.map (fun a => a + 1), r.2.1, e1 :: r.2.2)
      | none => (some 0, q, e1 :: rest)
    | _ => (none, q, e :: rest)

/-- `ingest_events` (server/main.py lines 32-63). The already-parsed body is
`some j`; `none` models a body `request.json()` failed to parse (the
`Invalid JSON` 400 path). `ts` is the ambient `now_z()` value. Returns the
HTTP outcome together with the final queue and the mutated request events. -/
def ingest (ts : String) (q : BQueue) (raw : Option Json) :
    IngestOutcome × BQueue × List Json :=
  match raw with
  | none => (IngestOutcome.badRequest "Invalid JSON", q, [])
  | some body =>
    match body with
    | Json.obj fields =>
      match ingestLoop ts [Json.obj fields] q with
      | (some a, qf, evs) => (IngestOutcome.ok a qf.items.length ts, qf, evs)
      | (none, qf, evs) => (IngestOutcome.attributeError, qf, evs)
    | Json.arr xs =>
      match ingestLoop ts xs q with
      | (some a, qf, evs) => (IngestOutcome.ok a qf.items.length ts, qf, evs)
      | (none, qf, evs) => (IngestOutcome.attributeError, qf, evs)
    | _ =>
      (IngestOutcome.badRequest "Body must be a JSON object or array pf objects",
        q, [])

/-!  Generator side (`src/generator/main.py`). The payload source is modelled
as an oracle stream `S : Nat → Json` of successive `load_payload` results,
with an explicit cursor `k` counting calls made so far. -/

/-- One `load_payload(source)` call: the next stream value, cursor advanced. -/
def load_payload (S : Nat → Json) (k : Nat) : Json × Nat :=
  (S k, k + 1)

/-- The list comprehension `[load_payload(payload_src) for _ in range(n)]`:
`n` successive calls, collected in order. -/
def loadMany (S : Nat → Json) (k : Nat) : Nat → List Json × Nat
  | 0 => ([], k)
  | n + 1 =>
    let bk := load_payload S k
    let rest := loadMany S bk.2 n
    (bk.1 :: rest.1, rest.2)

/-- Lines 78-81 of the worker: `body = load_payload(...)`; `data = body`;
`if batch > 1: data = [load_payload(...) for _ in range(batch)]`.
Returns the JSON `data` sent in the request and the final cursor (so
`result.2 - k` is the number of `load_payload` calls made). -/
def requestData (S : Nat → Json) (k : Nat) (batch : Int) : Json × Nat :=
  let bk := load_payload S k
  if 1 < batch then
    let many := loadMany S bk.2 batch.toNat
    (Json.arr many.1, many.2)
  else
    (bk.1, bk.2)

/-- `per_worker_rps = max(rps / max(concurrency, 1), 0.0)` (generator
line 107), with floats modelled as rationals. -/
def perWorkerRps (rps : ℚ) (concurrency : Int) : ℚ :=
  max (rps / ((max concurrency 1 : Int) : ℚ)) 0

/-- The target rates handed to the workers spawned by `run` (lines 108-111):
every task receives the one shared `per_worker_rps` value. -/
def workerRates (rps : ℚ) (concurrency : Int) : List ℚ :=
  (List.range concurrency.toNat).map (fun _ => perWorkerRps rps concurrency)

/-- `end_t = time.monotonic() + duration if duration > 0 else float("inf")`
(worker line 74); `none` models the unbounded deadline `float("inf")`. -/
def end_t (start duration : ℚ) : Option ℚ :=
  if 0 < duration then some (start + duration) else none

/-- The loop guard `time.monotonic() < end_t` (worker line 77);
`now < inf` is always true. -/
def stillRunning (endT : Option ℚ) (now : ℚ) : Bool :=
  match endT with
  | none => true
  | some t => decide (now < t)

/-- Observable trace of a worker: iterations entered, final `sent` counter,
number of `client.post` calls issued, and the error lines printed. -/
structure WorkerTrace where
  iters : Nat
  sent : Int
  posts : Nat
  logs : List String

/-- The worker loop (lines 77-101), fuel-indexed: `clock i` is the
`time.monotonic()` reading at the guard of iteration `i`, and `outcomes i`
the result of the `client.post`/`resp.json()` of iteration `i` (`Except.error`
is any raised exception, caught by the `try`, printed and swallowed). Each
entered iteration makes exactly one post, appends its error message (if any)
to the log, and then runs `sent += batch` unconditionally. `fuel` bounds how
many iterations we observe; the loop itself exits only via its guard. -/
def workerRun (endT : Option ℚ) (clock : Nat → ℚ)
    (outcomes : Nat → Except String Unit) (batch : Int) : Nat → WorkerTrace
  | 0 => { iters := 0, sent := 0, posts := 0, logs := [] }
  | fuel + 1 =>
    if stillRunning endT (clock 0) then
      let lg : List String :=
        match outcomes 0 with
        | Except.ok _ => []
        | Except.error e => [e]
      let t := workerRun endT (fun i => clock (i + 1))
        (fun i => outcomes (i + 1)) batch fuel
      { iters := t.iters + 1, sent := batch + t.sent, posts := t.posts + 1,
        logs := lg ++ t.logs }
    else
      { iters := 0, sent := 0, posts := 0, logs := [] }

/-!  Lemmas about dict operations. -/

theorem hasKey_append (d : List (String × Json)) (k v k2) :
    hasKey (d ++ [(k, v)]) k2 = (hasKey d k2 || (k == k2)) := by
  simp [hasKey, List.any_append]

theorem lookupKey_append_of_found (d : List (String × Json)) (l k v)
    (h : lookupKey d k = some v) : lookupKey (d ++ l) k = some v := by
  unfold lookupKey at h ⊢
  rw [List.find?_append]
  cases hf : List.find? (fun p => p.1 == k) d with
  | none => rw [hf] at h; simp at h
  | some p => rw [hf] at h; simp [Option.orElse] at h ⊢; exact h

theorem find?_key_none_of_hasKey_false (d : List (String × Json)) (k)
    (h : hasKey d k = false) : List.find? (fun p => p.1 == k) d = none := by
  unfold hasKey at h
  rw [List.any_eq_false] at h
  rw [List.find?_eq_none]
  intro p hp
  simpa using h p hp

theorem lookupKey_none_of_hasKey_false (d : List (String × Json)) (k)
    (h : hasKey d k = false) : lookupKey d k = none := by
  unfold lookupKey
  rw [find?_key_none_of_hasKey_false d k h]
  rfl

theorem hasKey_false_of_lookupKey_none (d : List (String × Json)) (k)
    (h : lookupKey d k = none) : hasKey d k = false := by
  unfold lookupKey at h
  unfold hasKey
  cases hf : List.find? (fun p => p.1 == k) d with
  | some p => rw [hf] at h; simp at h
  | none =>
    rw [List.any_eq_false]
    intro p hp
    have := List.find?_eq_none.mp hf p hp
    simpa using this

theorem hasKey_setdefault_self (d : List (String × Json)) (k v) :
    hasKey (setdefault d k v) k = true := by
  unfold setdefault
  by_cases h : hasKey d k
  · simp [h]
  · simp only [h, if_neg, Bool.false_eq_true, if_false]
    rw [hasKey_append]
    simp

theorem setdefault_of_hasKey (d : List (String × Json)) (k v)
    (h : hasKey d k = true) : setdefault d k v = d := by
  simp [setdefault, h]

theorem hasKey_setdefault_mono (d : List (String × Json)) (k v k2)
    (h : hasKey d k2 = true) : hasKey (setdefault d k v) k2 = true := by
  unfold setdefault
  by_cases hk : hasKey d k
  · simpa [hk]
  · simp only [hk, Bool.false_eq_true, if_false]
    rw [hasKey_append, h, Bool.true_or]

theorem hasKey_setdefault_other (d : List (String × Json)) (k v k2)
    (h : k ≠ k2) : hasKey (setdefault d k v) k2 = hasKey d k2 := by
  unfold setdefault
  by_cases hk : hasKey d k
  · simp [hk]
  · simp only [hk, Bool.false_eq_true, if_false]
    rw [hasKey_append]
    simp [h]

theorem lookupKey_setdefault_of_found (d : List (String × Json)) (k v k2 v2)
    (h : lookupKey d k2 = some v2) :
    lookupKey (setdefault d k v) k2 = some v2 := by
  unfold setdefault
  by_cases hk : hasKey d k
  · simpa [hk]
  · simp only [hk, Bool.false_eq_true, if_false]
    exact lookupKey_append_of_found d _ k2 v2 h

theorem lookupKey_setdefault_absent (d : List (String × Json)) (k v)
    (h : hasKey d k = false) : lookupKey (setdefault d k v) k = some v := by
  unfold setdefault
  simp only [h, Bool.false_eq_true, if_false]
  unfold lookupKey
  rw [List.find?_append, find?_key_none_of_hasKey_false d k h]
  simp [List.find?]

/-- C4 --- Metadata defaulting by `ingest_events` is idempotent and
non-destructive: every binding already present in the event is preserved
unchanged (a caller-supplied value for a metadata field is never
overwritten), each of the two default fields (`_recieved_at`, `_source`) is
set exactly when its key is absent, and applying the defaulting a second
time (even at a different timestamp) leaves the event unchanged. -/
theorem c4_metadata_defaulting_idempotent (ts ts2 : String)
    (d : List (String × Json)) :
    (∀ k v, lookupKey d k = some v → lookupKey (addMeta ts d) k = some v) ∧
    (hasKey d "_recieved_at" = false →
      lookupKey (addMeta ts d) "_recieved_at" = some (Json.str ts)) ∧
    (hasKey d "_recieved_at" = true →
      lookupKey (addMeta ts d) "_recieved_at" = lookupKey d "_recieved_at") ∧
    (hasKey d "_source" = false →
      lookupKey (addMeta ts d) "_source" = some (Json.str "events-generator")) ∧
    (hasKey d "_source" = true →
      lookupKey (addMeta ts d) "_source" = lookupKey d "_source") ∧
    addMeta ts2 (addMeta ts d) = addMeta ts d := by
  unfold addMeta
  refine ⟨?_, ?_, ?_, ?_, ?_, ?_⟩
  · intro k v h
    exact lookupKey_setdefault_of_found _ _ _ _ _
      (lookupKey_setdefault_of_found _ _ _ _ _ h)
  · intro h
    exact lookupKey_setdefault_of_found _ _ _ _ _
      (lookupKey_setdefault_absent _ _ _ h)
  · intro h
    rw [setdefault_of_hasKey _ _ _ h]
    cases hv : lookupKey d "_recieved_at" with
    | none =>
      exact absurd h (by simp [hasKey_false_of_lookupKey_none d _ hv])
    | some v =>
      rw [lookupKey_setdefault_of_found _ _ _ _ _ hv]
  · intro h
    have h2 : hasKey (setdefault d "_recieved_at" (Json.str ts)) "_source"
        = false := by
      rw [hasKey_setdefault_other]
      · exact h
      · decide
    exact lookupKey_setdefault_absent _ _ _ h2
  · intro h
    rw [setdefault_of_hasKey _ _ _ (hasKey_setdefault_mono _ _ _ _ h)]
    cases hv : lookupKey d "_source" with
    | none =>
      exact absurd h (by simp [hasKey_false_of_lookupKey_none d _ hv])
    | some v =>
      rw [lookupKey_setdefault_of_found _ _ _ _ _ hv]
  · have hr : hasKey (setdefault (setdefault d "_recieved_at" (Json.str ts))
        "_source" (Json.str "events-generator")) "_recieved_at" = true :=
      hasKey_setdefault_mono _ _ _ _ (hasKey_setdefault_self _ _ _)
    have hs : hasKey (setdefault (setdefault d "_recieved_at" (Json.str ts))
        "_source" (Json.str "events-generator")) "_source" = true :=
      hasKey_setdefault_self _ _ _
    rw [setdefault_of_hasKey _ _ _ hr, setdefault_of_hasKey _ _ _ hs]

/-- C4, witness: a concrete event carrying its own `_source` keeps the
caller's value, gains only the absent `_recieved_at`, and re-applying the
defaulting at a later timestamp changes nothing. -/
theorem c4_metadata_defaulting_idempotent_witness :
    lookupKey (addMeta "t1" [("_source", Json.str "mine")]) "_source"
      = some (Json.str "mine") ∧
    lookupKey (addMeta "t1" [("_source", Json.str "mine")]) "_recieved_at"
      = some (Json.str "t1") ∧
    addMeta "t2" (addMeta "t1" [("_source", Json.str "mine")])
      = addMeta "t1" [("_source", Json.str "mine")] :=
  ⟨(c4_metadata_defaulting_idempotent "t1" "t2" [("_source", Json.str "mine")]).1
      "_source" (Json.str "mine") rfl,
    (c4_metadata_defaulting_idempotent "t1" "t2"
      [("_source", Json.str "mine")]).2.1 rfl,
    (c4_metadata_defaulting_idempotent "t1" "t2"
      [("_source", Json.str "mine")]).2.2.2.2.2⟩

/-!  The bounded-queue invariant. -/

theorem applyOp_put_eq (q : BQueue) (e : Json) :
    applyOp q (QOp.put e) = (put_nowait q e).getD q := rfl

theorem applyOp_get_nil (q : BQueue) (h : q.items = []) :
    applyOp q QOp.get = q := by
  unfold applyOp
  rw [h]

theorem applyOp_get_cons (q : BQueue) (x : Json) (rest : List Json)
    (h : q.items = x :: rest) :
    applyOp q QOp.get = { q with items := rest } := by
  unfold applyOp
  rw [h]

theorem applyOp_preserves (q : BQueue) (op : QOp) (hcap : 0 < q.maxsize)
    (hlen : q.items.length ≤ q.maxsize) :
    (applyOp q op).maxsize = q.maxsize ∧
    (applyOp q op).items.length ≤ q.maxsize := by
  cases op with
  | put e =>
    rw [applyOp_put_eq]
    unfold put_nowait
    by_cases hf : bqFull q = true
    · rw [if_pos hf]
      exact ⟨rfl, hlen⟩
    · rw [if_neg hf]
      have hlt : q.items.length < q.maxsize := by
        unfold bqFull at hf
        have hne : q.maxsize ≠ 0 := Nat.pos_iff_ne_zero.mp hcap
        rw [if_neg hne] at hf
        simp only [decide_eq_true_eq] at hf
        omega
      refine ⟨rfl, ?_⟩
      simp only [Option.getD_some, List.length_append, List.length_cons,
        List.length_nil]
      omega
  | get =>
    cases h : q.items with
    | nil =>
      rw [applyOp_get_nil q h]
      exact ⟨rfl, hlen⟩
    | cons x rest =>
      rw [applyOp_get_cons q x rest h]
      refine ⟨rfl, ?_⟩
      rw [h] at hlen
      simp only [List.length_cons] at hlen
      show rest.length ≤ q.maxsize
      omega

theorem applyOps_invariant (ops : List QOp) (q : BQueue) (hcap : 0 < q.maxsize)
    (hlen : q.items.length ≤ q.maxsize) :
    (applyOps q ops).maxsize = q.maxsize ∧
    (applyOps q ops).items.length ≤ q.maxsize := by
  induction ops generalizing q with
  | nil => exact ⟨rfl, hlen⟩
  | cons op rest ih =>
    have step := applyOp_preserves q op hcap hlen
    have tail := ih (applyOp q op) (step.1 ▸ hcap) (step.1 ▸ step.2)
    have hrw : applyOps q (op :: rest) = applyOps (applyOp q op) rest := rfl
    rw [hrw]
    exact ⟨tail.1.trans step.1, tail.2.trans_eq step.1⟩

/-- C5 --- For every sequence of `put`/`get` operations on the bounded queue,
the size stays within `[0, capacity]` after every prefix of the sequence
(sizes are naturals, so `0 ≤ size` is inherent), and the non-blocking insert
on a full queue fails immediately (returns the `QueueFull` signal, leaving
the queue unchanged) rather than exceeding capacity. -/
theorem c5_queue_size_bounded (ops : List QOp) (q : BQueue)
    (hcap : 0 < q.maxsize) (hlen : q.items.length ≤ q.maxsize) :
    (∀ i, (applyOps q (ops.take i)).items.length ≤ q.maxsize) ∧
    (∀ q2 : BQueue, bqFull q2 = true → ∀ e, put_nowait q2 e = none) := by
  constructor
  · intro i
    exact (applyOps_invariant (ops.take i) q hcap hlen).2
  · intro q2 hf e
    unfold put_nowait
    rw [hf]
    rfl

/-- C5, witness: three inserts into an initially empty capacity-2 queue keep
the size at most 2 after every prefix, and the insert into the now-full queue
fails. -/
theorem c5_queue_size_bounded_witness :
    (∀ i, (applyOps (BQueue.mk 2 [])
      (([QOp.put Json.null, QOp.put Json.null, QOp.put Json.null]).take i)
      ).items.length ≤ 2) ∧
    put_nowait (BQueue.mk 2 [Json.null, Json.null]) Json.null = none :=
  ⟨(c5_queue_size_bounded
      [QOp.put Json.null, QOp.put Json.null, QOp.put Json.null]
      (BQueue.mk 2 []) (by decide) (by decide)).1,
    (c5_queue_size_bounded [] (BQueue.mk 2 []) (by decide) (by decide)).2
      (BQueue.mk 2 [Json.null, Json.null]) rfl Json.null⟩

/-!  Behaviour of the `ingest_events` loop. -/

theorem put_nowait_not_full (q : BQueue) (e : Json) (hf : bqFull q = false) :
    put_nowait q e = some { q with items := q.items ++ [e] } := by
  unfold put_nowait
  rw [hf]
  rfl

theorem put_nowait_full (q : BQueue) (e : Json) (hf : bqFull q = true) :
    put_nowait q e = none := by
  unfold put_nowait
  rw [hf]
  rfl

theorem bqFull_false_iff (q : BQueue) (hcap : 0 < q.maxsize) :
    bqFull q = false ↔ q.items.length < q.maxsize := by
  unfold bqFull
  have hne : q.maxsize ≠ 0 := Nat.pos_iff_ne_zero.mp hcap
  rw [if_neg hne]
  simp only [decide_eq_false_iff_not]
  omega

theorem ingestLoop_nil (ts : String) (q : BQueue) :
    ingestLoop ts [] q = (some 0, q, []) := rfl

theorem ingestLoop_cons (ts : String) (fields : List (String × Json))
    (rest : List Json) (q : BQueue) :
    ingestLoop ts (Json.obj fields :: rest) q =
      (match put_nowait q (Json.obj (addMeta ts fields)) with
        | some q1 =>
          ((ingestLoop ts rest q1).1.map (fun a => a + 1),
            (ingestLoop ts rest q1).2.1,
            Json.obj (addMeta ts fields) :: (ingestLoop ts rest q1).2.2)
        | none => (some 0, q, Json.obj (addMeta ts fields) :: rest)) := rfl

theorem ingestLoop_cons_full (ts : String) (fields : List (String × Json))
    (rest : List Json) (q : BQueue)
    (h : put_nowait q (Json.obj (addMeta ts fields)) = none) :
    ingestLoop ts (Json.obj fields :: rest) q =
      (some 0, q, Json.obj (addMeta ts fields) :: rest) := by
  rw [ingestLoop_cons, h]

theorem ingestLoop_cons_ok (ts : String) (fields : List (String × Json))
    (rest : List Json) (q q1 : BQueue)
    (h : put_nowait q (Json.obj (addMeta ts fields)) = some q1) :
    ingestLoop ts (Json.obj fields :: rest) q =
      ((ingestLoop ts rest q1).1.map (fun a => a + 1),
        (ingestLoop ts rest q1).2.1,
        Json.obj (addMeta ts fields) :: (ingestLoop ts rest q1).2.2) := by
  rw [ingestLoop_cons, h]

/-- Full characterization of the ingest loop on a well-formed (all-objects)
batch: with `free` slots left, the first `min n free` events are mutated and
enqueued in order, the `free+1`-st event (when the batch overflows) is
mutated but not enqueued, all later events are untouched, and the loop
completes normally with `accepted = min n free`. -/
theorem ingestLoop_spec (ts : String) (events : List Json) (q : BQueue)
    (hobj : ∀ e ∈ events, isObjJson e = true)
    (hcap : 0 < q.maxsize) (hlen : q.items.length ≤ q.maxsize) :
    ingestLoop ts events q =
      (some (min events.length (q.maxsize - q.items.length)),
        BQueue.mk q.maxsize (q.items ++
          ((events.take (min events.length (q.maxsize - q.items.length))).map
            (mutateEvent ts))),
        (events.take
            (min events.length (q.maxsize - q.items.length + 1))).map
          (mutateEvent ts)
          ++ events.drop
            (min events.length (q.maxsize - q.items.length + 1))) := by
  revert hobj hcap hlen
  induction events generalizing q with
  | nil =>
    intro hobj hcap hlen
    rw [ingestLoop_nil]
    simp
  | cons e rest ih =>
    intro hobj hcap hlen
    obtain ⟨fields, rfl⟩ : ∃ fields, e = Json.obj fields := by
      have he := hobj e (List.mem_cons_self e rest)
      cases e <;> first
        | exact ⟨_, rfl⟩
        | exact absurd he (by simp [isObjJson])
    by_cases hf : bqFull q = true
    · have hs : q.items.length = q.maxsize := by
        unfold bqFull at hf
        have hne : q.maxsize ≠ 0 := Nat.pos_iff_ne_zero.mp hcap
        rw [if_neg hne] at hf
        simp only [decide_eq_true_eq] at hf
        omega
      rw [ingestLoop_cons_full ts fields rest q (put_nowait_full q _ hf)]
      have hfree : q.maxsize - q.items.length = 0 := by omega
      rw [hfree]
      have hmin0 : min (Json.obj fields :: rest).length 0 = 0 := by omega
      have hmin1 : min (Json.obj fields :: rest).length (0 + 1) = 1 := by
        simp only [List.length_cons]
        omega
      rw [hmin0, hmin1]
      simp [mutateEvent]
    · have hff : bqFull q = false := by
        cases hb : bqFull q
        · rfl
        · exact absurd hb hf
      have hlt : q.items.length < q.maxsize := (bqFull_false_iff q hcap).mp hff
      rw [ingestLoop_cons_ok ts fields rest q _ (put_nowait_not_full q _ hff)]
      have ih2 := ih { q with items := q.items ++ [Json.obj (addMeta ts fields)] }
        (fun x hx => hobj x (List.mem_cons_of_mem _ hx))
        hcap
        (by
          simp only [List.length_append, List.length_cons, List.length_nil]
          omega)
      simp only [List.length_append, List.length_cons, List.length_nil,
        Nat.zero_add] at ih2
      rw [ih2]
      have harith2 :
          min (Json.obj fields :: rest).length
              (q.maxsize - q.items.length)
            = min rest.length (q.maxsize - (q.items.length + 1)) + 1 := by
        simp only [List.length_cons]
        omega
      have harith3 :
          min (Json.obj fields :: rest).length
              (q.maxsize - q.items.length + 1)
            = min rest.length (q.maxsize - (q.items.length + 1) + 1) + 1 := by
        simp only [List.length_cons]
        omega
      refine Prod.ext ?_ (Prod.ext ?_ ?_)
      · show Option.map (fun a => a + 1)
            (some (min rest.length (q.maxsize - (q.items.length + 1))))
          = some (min (Json.obj fields :: rest).length
              (q.maxsize - q.items.length))
        rw [harith2]
        rfl
      · show BQueue.mk q.maxsize
            (q.items ++ [Json.obj (addMeta ts fields)] ++
              (rest.take (min rest.length
                (q.maxsize - (q.items.length + 1)))).map (mutateEvent ts))
          = BQueue.mk q.maxsize _
        congr 1
        rw [harith2, List.take_succ_cons, List.map_cons, List.append_assoc]
        rfl
      · show Json.obj (addMeta ts fields) ::
            ((rest.take (min rest.length
              (q.maxsize - (q.items.length + 1) + 1))).map (mutateEvent ts)
              ++ rest.drop (min rest.length
                (q.maxsize - (q.items.length + 1) + 1)))
          = _
        rw [harith3, List.take_succ_cons, List.map_cons, List.drop_succ_cons]
        rfl

theorem ingest_arr_eq (ts : String) (q : BQueue) (xs : List Json) :
    ingest ts q (some (Json.arr xs)) =
      (match ingestLoop ts xs q with
        | (some a, qf, evs) => (IngestOutcome.ok a qf.items.length ts, qf, evs)
        | (none, qf, evs) => (IngestOutcome.attributeError, qf, evs)) := rfl

/-- C3 --- For every well-formed `POST /events` batch (a JSON array of
objects), the result is an HTTP 200 (`IngestOutcome.ok`), `accepted` is the
number of events enqueued before the first queue-full failure
(`min n free`, which is `n` when none fails), the events are enqueued in
submission order (the queue is extended by exactly the mutated accepted
prefix), and the events past the first failure are not enqueued (the queue
grows by exactly `accepted`). -/
theorem c3_batch_accepted_count_and_order (ts : String) (events : List Json)
    (q : BQueue) (hobj : ∀ e ∈ events, isObjJson e = true)
    (hcap : 0 < q.maxsize) (hlen : q.items.length ≤ q.maxsize) :
    (ingest ts q (some (Json.arr events))).1
      = IngestOutcome.ok (min events.length (q.maxsize - q.items.length))
          (q.items.length + min events.length (q.maxsize - q.items.length))
          ts ∧
    (ingest ts q (some (Json.arr events))).2.1.items
      = q.items ++ ((events.take (min events.length
          (q.maxsize - q.items.length))).map (mutateEvent ts)) := by
  have hspec := ingestLoop_spec ts events q hobj hcap hlen
  rw [ingest_arr_eq, hspec]
  constructor
  · show IngestOutcome.ok _ _ _ = _
    congr 1
    simp only [List.length_append, List.length_map, List.length_take]
    omega
  · rfl

/-- C3, witness: capacity 3 with 2 items already queued, a batch of 3
objects: HTTP 200 with `accepted = 1`, `queued_size = 3`, and only the first
event (mutated) was appended to the queue. -/
theorem c3_batch_accepted_count_and_order_witness :
    (ingest "T" (BQueue.mk 3 [Json.null, Json.null])
        (some (Json.arr [Json.obj [], Json.obj [], Json.obj []]))).1
      = IngestOutcome.ok 1 3 "T" ∧
    (ingest "T" (BQueue.mk 3 [Json.null, Json.null])
        (some (Json.arr [Json.obj [], Json.obj [], Json.obj []]))).2.1.items
      = [Json.null, Json.null, Json.obj (addMeta "T" [])] := by
  have h := c3_batch_accepted_count_and_order "T"
    [Json.obj [], Json.obj [], Json.obj []] (BQueue.mk 3 [Json.null, Json.null])
    (by decide) (by decide) (by decide)
  exact ⟨h.1, h.2⟩

/-- C9 --- When a well-formed batch overflows the queue, the first rejected
event (at index `accepted`) has already had the metadata defaults applied:
it appears mutated in the request's event list even though it was never
enqueued (the queue grew by exactly `accepted`). -/
theorem c9_rejected_event_already_mutated (ts : String) (events : List Json)
    (q : BQueue) (hobj : ∀ e ∈ events, isObjJson e = true)
    (hcap : 0 < q.maxsize) (hlen : q.items.length ≤ q.maxsize)
    (hrej : min events.length (q.maxsize - q.items.length) < events.length) :
    ((ingest ts q (some (Json.arr events))).2.2)[
        min events.length (q.maxsize - q.items.length)]?
      = (events[min events.length (q.maxsize - q.items.length)]?).map
          (mutateEvent ts) ∧
    (ingest ts q (some (Json.arr events))).2.1.items.length
      = q.items.length + min events.length (q.maxsize - q.items.length) := by
  have hspec := ingestLoop_spec ts events q hobj hcap hlen
  rw [ingest_arr_eq, hspec]
  have hk : min events.length (q.maxsize - q.items.length + 1)
      = min events.length (q.maxsize - q.items.length) + 1 := by omega
  constructor
  · show ((events.take (min events.length
        (q.maxsize - q.items.length + 1))).map (mutateEvent ts)
        ++ events.drop (min events.length
          (q.maxsize - q.items.length + 1)))[
        min events.length (q.maxsize - q.items.length)]? = _
    rw [hk]
    rw [List.getElem?_append_left (by
      simp only [List.length_map, List.length_take]
      omega)]
    rw [List.getElem?_map]
    rw [List.getElem?_take_of_lt (Nat.lt_succ_self _)]
  · show (BQueue.mk q.maxsize (q.items ++ (events.take (min events.length
        (q.maxsize - q.items.length))).map (mutateEvent ts))).items.length = _
    simp only [List.length_append, List.length_map, List.length_take]
    omega

/-- C9, witness: a full capacity-1 queue receiving a one-object batch:
`accepted = 0`, the rejected event comes back with the metadata applied, and
the queue still holds its single original item. -/
theorem c9_rejected_event_already_mutated_witness :
    ((ingest "T" (BQueue.mk 1 [Json.null])
        (some (Json.arr [Json.obj []]))).2.2)[0]?
      = some (Json.obj (addMeta "T" [])) ∧
    (ingest "T" (BQueue.mk 1 [Json.null])
        (some (Json.arr [Json.obj []]))).2.1.items.length = 1 := by
  have h := c9_rejected_event_already_mutated "T" [Json.obj []]
    (BQueue.mk 1 [Json.null]) (by decide) (by decide) (by decide) (by decide)
  exact ⟨h.1, h.2⟩

/-- C10 --- `ingest_events` enqueues the mutated request events themselves:
the returned event list is exactly the first `k` events mutated in place
followed by the untouched remainder, where `k` is `accepted` plus one when a
rejection occurred (only the rejected event is additionally mutated) and
`accepted` otherwise; and the entries appended to the queue are precisely
the first `accepted` entries of that same mutated list (the same objects,
no copies). -/
theorem c10_mutation_frame (ts : String) (events : List Json)
    (q : BQueue) (hobj : ∀ e ∈ events, isObjJson e = true)
    (hcap : 0 < q.maxsize) (hlen : q.items.length ≤ q.maxsize) :
    (ingest ts q (some (Json.arr events))).2.2
      = (events.take (min events.length
          (q.maxsize - q.items.length + 1))).map (mutateEvent ts)
        ++ events.drop (min events.length (q.maxsize - q.items.length + 1)) ∧
    (ingest ts q (some (Json.arr events))).2.1.items
      = q.items ++ ((ingest ts q (some (Json.arr events))).2.2).take
          (min events.length (q.maxsize - q.items.length)) := by
  have hspec := ingestLoop_spec ts events q hobj hcap hlen
  constructor
  · rw [ingest_arr_eq, hspec]
  · rw [ingest_arr_eq, hspec]
    show q.items ++ (events.take (min events.length
        (q.maxsize - q.items.length))).map (mutateEvent ts) = _
    congr 1
    rw [List.take_append_of_le_length (by
      simp only [List.length_map, List.length_take]
      omega)]
    rw [← List.map_take, List.take_take]
    congr 2
    omega

/-- C10, witness: capacity 2 with one item queued and a three-object batch:
`accepted = 1`; events 1 and 2 come back mutated (the accepted one and the
rejected one), event 3 is untouched, and the queue gained exactly the first
entry of the returned mutated list. -/
theorem c10_mutation_frame_witness :
    (ingest "T" (BQueue.mk 2 [Json.null])
        (some (Json.arr [Json.obj [], Json.obj [("a", Json.num 1)],
          Json.obj [("b", Json.null)]]))).2.2
      = [Json.obj (addMeta "T" []), Json.obj (addMeta "T" [("a", Json.num 1)]),
          Json.obj [("b", Json.null)]] ∧
    (ingest "T" (BQueue.mk 2 [Json.null])
        (some (Json.arr [Json.obj [], Json.obj [("a", Json.num 1)],
          Json.obj [("b", Json.null)]]))).2.1.items
      = [Json.null, Json.obj (addMeta "T" [])] := by
  have h := c10_mutation_frame "T"
    [Json.obj [], Json.obj [("a", Json.num 1)], Json.obj [("b", Json.null)]]
    (BQueue.mk 2 [Json.null]) (by decide) (by decide) (by decide)
  exact ⟨h.1, h.2⟩

/-- C1 --- The claimed behaviour fails on the code: a well-formed JSON array
containing a number is not rejected with a 400 `ClientInputError`; the list
branch of `ingest_events` performs no element validation, so
`event.setdefault` raises an unhandled `AttributeError` (an HTTP 500).
Moreover, with a leading object in the array, that object is enqueued
before the crash, so a queue interaction does occur. A non-object, non-array
top-level body does take the 400 path. -/
theorem c1_array_of_number_crashes_not_400 :
    (ingest "T" EVENT_QUEUE (some (Json.arr [Json.num 1]))).1
      = IngestOutcome.attributeError ∧
    (ingest "T" EVENT_QUEUE (some (Json.arr [Json.num 1]))).2.1
      = EVENT_QUEUE ∧
    (ingest "T" EVENT_QUEUE
        (some (Json.arr [Json.obj [], Json.num 1]))).2.1.items
      = [Json.obj (addMeta "T" [])] ∧
    (ingest "T" EVENT_QUEUE (some (Json.str "nope"))).1
      = IngestOutcome.badRequest
          "Body must be a JSON object or array pf objects" :=
  ⟨rfl, rfl, rfl, rfl⟩

/-!  Generator-side lemmas. -/

theorem loadMany_spec (S : Nat → Json) (k n : Nat) :
    loadMany S k n = ((List.range n).map (fun i => S (k + i)), k + n) := by
  induction n generalizing k with
  | zero => rfl
  | succ m ih =>
    show (S k :: (loadMany S (k + 1) m).1, (loadMany S (k + 1) m).2) = _
    rw [ih (k + 1)]
    rw [List.range_succ_eq_map, List.map_cons, List.map_map]
    refine Prod.ext ?_ ?_
    · show S k :: List.map (fun i => S (k + 1 + i)) (List.range m)
        = S (k + 0) :: List.map ((fun i => S (k + i)) ∘ Nat.succ) (List.range m)
      have hfun : ((fun i => S (k + i)) ∘ Nat.succ)
          = fun i => S (k + 1 + i) := by
        funext i
        show S (k + (i + 1)) = S (k + 1 + i)
        congr 1
        omega
      rw [hfun]
      rfl
    · show k + 1 + m = k + (m + 1)
      omega

/-- C2, counterexample: with `batch = 2` the worker makes three
`load_payload` calls (the initial `body = load_payload(...)` is discarded
when the list comprehension rebuilds `data`), not two: the claim's
"exactly one call per item in the sent request" fails at `batch = 2`. -/
theorem c2_counterexample_three_calls_for_batch_two :
    (requestData (fun i => Json.num (Int.ofNat i)) 0 2).2 ≠ 2 := by
  decide

/-- C2 (amended) --- With `batch == 1` the worker makes exactly one
`load_payload` call and sends that single object; with `batch > 1` it makes
`batch + 1` calls --- the first result is discarded --- and sends an array
of the `batch` later results, one per item of the sent array. -/
theorem c2_amended_payload_calls (S : Nat → Json) (k : Nat) (B : Int) :
    (requestData S k 1 = (S k, k + 1)) ∧
    (1 < B → requestData S k B
      = (Json.arr ((List.range B.toNat).map (fun i => S (k + 1 + i))),
          k + 1 + B.toNat)) := by
  constructor
  · rfl
  · intro hB
    show (if 1 < B then
        (Json.arr (loadMany S (k + 1) B.toNat).1, (loadMany S (k + 1) B.toNat).2)
      else (S k, k + 1)) = _
    rw [if_pos hB, loadMany_spec]

/-- C2, witness: at `batch = 1` one call and a single object; at `batch = 3`
four calls (cursor ends at 4) and an array of the three post-discard
payloads. -/
theorem c2_amended_payload_calls_witness :
    requestData (fun i => Json.num (Int.ofNat i)) 0 1 = (Json.num 0, 1) ∧
    requestData (fun i => Json.num (Int.ofNat i)) 0 3
      = (Json.arr [Json.num 1, Json.num 2, Json.num 3], 4) := by
  have h := c2_amended_payload_calls (fun i => Json.num (Int.ofNat i)) 0 3
  refine ⟨h.1, ?_⟩
  rw [h.2 (by decide)]
  rfl

/-- C6 --- `run` computes one shared per-worker target rate: every spawned
worker receives the same `per_worker_rps`; `concurrency ≤ 0` is treated as 1
(via `max(concurrency, 1)`); the rate is floored at 0; and for positive rate
and concurrency it equals exactly `R / C`. -/
theorem c6_rate_evenly_split (R : ℚ) (C : Int) :
    (∀ r ∈ workerRates R C, r = perWorkerRps R C) ∧
    (C ≤ 0 → perWorkerRps R C = perWorkerRps R 1) ∧
    0 ≤ perWorkerRps R C ∧
    (0 < R → 0 < C → perWorkerRps R C = R / (C : ℚ)) := by
  refine ⟨?_, ?_, ?_, ?_⟩
  · intro r hr
    unfold workerRates at hr
    rcases List.mem_map.mp hr with ⟨i, _, rfl⟩
    rfl
  · intro hC
    have hm : (max C 1 : Int) = 1 := by omega
    unfold perWorkerRps
    rw [hm]
    norm_num
  · exact le_max_right _ _
  · intro hR hC
    have hm : (max C 1 : Int) = C := max_eq_left (by omega)
    unfold perWorkerRps
    rw [hm]
    have hpos : (0 : ℚ) < R / (C : ℚ) := by
      apply div_pos hR
      exact_mod_cast hC
    exact max_eq_left hpos.le

/-- C6, witness: at aggregate rate 10 and concurrency 4 each worker's target
rate is exactly `10 / 4`, and the computed rate is nonnegative. -/
theorem c6_rate_evenly_split_witness :
    perWorkerRps 10 4 = 10 / ((4 : Int) : ℚ) ∧
    (0 : ℚ) ≤ perWorkerRps 10 4 := by
  have h := c6_rate_evenly_split 10 4
  exact ⟨h.2.2.2 (by norm_num) (by decide), h.2.2.1⟩

theorem workerRun_succ (endT : Option ℚ) (clock : Nat → ℚ)
    (o : Nat → Except String Unit) (batch : Int) (fuel : Nat) :
    workerRun endT clock o batch (fuel + 1) =
      if stillRunning endT (clock 0) then
        { iters := (workerRun endT (fun i => clock (i + 1))
            (fun i => o (i + 1)) batch fuel).iters + 1,
          sent := batch + (workerRun endT (fun i => clock (i + 1))
            (fun i => o (i + 1)) batch fuel).sent,
          posts := (workerRun endT (fun i => clock (i + 1))
            (fun i => o (i + 1)) batch fuel).posts + 1,
          logs := (match o 0 with
            | Except.ok _ => []
            | Except.error e => [e]) ++ (workerRun endT (fun i => clock (i + 1))
            (fun i => o (i + 1)) batch fuel).logs }
      else { iters := 0, sent := 0, posts := 0, logs := [] } := rfl

/-- C7 --- A transport failure in a worker iteration is logged and swallowed:
the loop's shape (iterations entered) and the `sent` counter are completely
independent of the send outcomes, `sent` grows by `batch` per iteration
exactly as on success, exactly one post is attempted per iteration (no retry
within an iteration), and with every send failing the log gains exactly the
per-iteration error messages. -/
theorem c7_transport_failure_swallowed (endT : Option ℚ) (clock : Nat → ℚ)
    (o1 o2 : Nat → Except String Unit) (msg : Nat → String) (batch : Int)
    (fuel : Nat) :
    (workerRun endT clock o1 batch fuel).iters
      = (workerRun endT clock o2 batch fuel).iters ∧
    (workerRun endT clock o1 batch fuel).sent
      = (workerRun endT clock o2 batch fuel).sent ∧
    (workerRun endT clock o1 batch fuel).sent
      = ((workerRun endT clock o1 batch fuel).iters : Int) * batch ∧
    (workerRun endT clock o1 batch fuel).posts
      = (workerRun endT clock o1 batch fuel).iters ∧
    (workerRun endT clock (fun i => Except.error (msg i)) batch fuel).logs
      = (List.range (workerRun endT clock (fun i => Except.error (msg i))
          batch fuel).iters).map msg := by
  induction fuel generalizing clock o1 o2 msg with
  | zero => exact ⟨rfl, rfl, by simp [workerRun], rfl, rfl⟩
  | succ n ih =>
    obtain ⟨h1, h2, h3, h4, h5⟩ := ih (fun i => clock (i + 1))
      (fun i => o1 (i + 1)) (fun i => o2 (i + 1)) (fun i => msg (i + 1))
    by_cases h : stillRunning endT (clock 0) = true
    · rw [workerRun_succ endT clock o1, workerRun_succ endT clock o2,
        workerRun_succ endT clock (fun i => Except.error (msg i)),
        if_pos h, if_pos h, if_pos h]
      refine ⟨?_, ?_, ?_, ?_, ?_⟩
      · show (workerRun endT (fun i => clock (i + 1))
            (fun i => o1 (i + 1)) batch n).iters + 1
          = (workerRun endT (fun i => clock (i + 1))
            (fun i => o2 (i + 1)) batch n).iters + 1
        rw [h1]
      · show batch + (workerRun endT (fun i => clock (i + 1))
            (fun i => o1 (i + 1)) batch n).sent
          = batch + (workerRun endT (fun i => clock (i + 1))
            (fun i => o2 (i + 1)) batch n).sent
        rw [h2]
      · show batch + (workerRun endT (fun i => clock (i + 1))
            (fun i => o1 (i + 1)) batch n).sent
          = (((workerRun endT (fun i => clock (i + 1))
            (fun i => o1 (i + 1)) batch n).iters + 1 : Nat) : Int) * batch
        rw [h3]
        push_cast
        ring
      · show (workerRun endT (fun i => clock (i + 1))
            (fun i => o1 (i + 1)) batch n).posts + 1
          = (workerRun endT (fun i => clock (i + 1))
            (fun i => o1 (i + 1)) batch n).iters + 1
        rw [h4]
      · show [msg 0] ++ (workerRun endT (fun i => clock (i + 1))
            (fun i => Except.error (msg (i + 1))) batch n).logs
          = (List.range ((workerRun endT (fun i => clock (i + 1))
            (fun i => Except.error (msg (i + 1))) batch n).iters + 1)).map msg
        have h5a : (workerRun endT (fun i => clock (i + 1))
            (fun i => Except.error (msg (i + 1))) batch n).logs
          = (List.range ((workerRun endT (fun i => clock (i + 1))
            (fun i => Except.error (msg (i + 1))) batch n).iters)).map
              (fun i => msg (i + 1)) := h5
        rw [h5a, List.range_succ_eq_map, List.map_cons, List.map_map]
        rfl
    · rw [workerRun_succ endT clock o1, workerRun_succ endT clock o2,
        workerRun_succ endT clock (fun i => Except.error (msg i)),
        if_neg h, if_neg h, if_neg h]
      exact ⟨rfl, rfl, by simp, rfl, rfl⟩

/-- C8 --- With `duration ≤ 0` the deadline is `float("inf")` (`end_t` is
unbounded), the loop guard `time.monotonic() < end_t` is true at every
iteration, so the worker enters an iteration for every unit of observation
fuel --- it never self-terminates and keeps issuing requests until
externally cancelled. -/
theorem c8_nonpositive_duration_never_self_terminates (start duration : ℚ)
    (hdur : duration ≤ 0) (clock : Nat → ℚ) (o : Nat → Except String Unit)
    (batch : Int) (fuel : Nat) :
    (workerRun (end_t start duration) clock o batch fuel).iters = fuel := by
  have hinf : end_t start duration = none := by
    unfold end_t
    rw [if_neg (not_lt.mpr hdur)]
  rw [hinf]
  induction fuel generalizing clock o with
  | zero => rfl
  | succ n ih =>
    rw [workerRun_succ,
      if_pos (show stillRunning none (clock 0) = true from rfl)]
    show (workerRun none (fun i => clock (i + 1))
        (fun i => o (i + 1)) batch n).iters + 1 = n + 1
    rw [ih]

/-- C8, witness: with `duration = 0` a worker observed for three scheduling
steps enters all three iterations (the guard never fails). -/
theorem c8_nonpositive_duration_witness :
    (workerRun (end_t 5 0) (fun j => (j : ℚ))
      (fun _ => Except.ok ()) 1 3).iters = 3 :=
  c8_nonpositive_duration_never_self_terminates 5 0 le_rfl
    (fun j => (j : ℚ)) (fun _ => Except.ok ()) 1 3

end DistributedEventLab
